import Mathlib

/-!
Verification of the `process-csv` ingestion pipeline
(`src/backend/functions/process-csv/main.go`) of the clickpe.ai repository,
together with the destination `users` table of `src/database/init.sql`.

The Go source contains two variants of the job: a streaming/worker-pool
pipeline (`processCSVStreaming`, `createColumnIndex`, `validateColumns`,
`parseWorker`, `parseUserRecord`, `batchInserter`, `bulkInsert`) and a
superseded sequential variant (`parseCSV`, `saveToDatabase`).  Both are
embedded below.  Machine floating point is modelled exactly with `ℚ`
(the numeric value carried by `float64` on the plain decimal inputs the
pipeline parses), and `CURRENT_TIMESTAMP` is modelled as an abstract
`Nat` clock passed explicitly.

The destination `users` table is exactly the one `init.sql` creates: it has
a `created_at` column but no `updated_at` column.  PostgreSQL analyzes a
statement before running it, so the streaming bulk upsert — whose
`DO UPDATE SET` list assigns `updated_at` — is rejected on every execution
(undefined column) and its transaction never commits; this is modelled
explicitly by checking the statement's SET list against the table's
columns.
-/

namespace ClickPe

/-! ### String helpers

Models of `strings.TrimSpace` and `strings.ToLower` (exact on ASCII input,
which is what CSV headers and numeric fields are). -/

def trimChars (cs : List Char) : List Char :=
  ((cs.dropWhile Char.isWhitespace).reverse.dropWhile Char.isWhitespace).reverse

/-- `strings.TrimSpace`. -/
def trimS (s : String) : String := ⟨trimChars s.data⟩

/-- `strings.ToLower`. -/
def toLowerS (s : String) : String := ⟨s.data.map Char.toLower⟩

/-- The normalization applied to each header cell:
`strings.ToLower(strings.TrimSpace(col))`. -/
def normalizeHeader (s : String) : String := toLowerS (trimS s)

/-! ### strconv models -/

def digitVal (c : Char) : Nat := c.toNat - 48

def natDigits (cs : List Char) : Nat := cs.foldl (fun n c => n * 10 + digitVal c) 0

def atoiCore (cs : List Char) : Option Nat :=
  if cs.isEmpty then none
  else if cs.all Char.isDigit then some (natDigits cs) else none

def intMax : Nat := 2 ^ 63 - 1

/-- Models `strconv.Atoi`: an optional sign followed by at least one decimal
digit, rejected on 64-bit overflow. -/
def atoi (s : String) : Option Int :=
  match s.data with
  | '+' :: cs => (atoiCore cs).bind (fun n => if n ≤ intMax then some (n : Int) else none)
  | '-' :: cs => (atoiCore cs).bind (fun n => if n ≤ intMax + 1 then some (-(n : Int)) else none)
  | cs => (atoiCore cs).bind (fun n => if n ≤ intMax then some (n : Int) else none)

def decimalCore (cs : List Char) : Option ℚ :=
  let ip := cs.takeWhile Char.isDigit
  let rest := cs.dropWhile Char.isDigit
  match rest with
  | [] => if ip.isEmpty then none else some (natDigits ip : ℚ)
  | '.' :: fp =>
      if fp.all Char.isDigit && !(ip.isEmpty && fp.isEmpty) then
        some ((natDigits ip : ℚ) + (natDigits fp : ℚ) / ((10 : ℚ) ^ fp.length))
      else none
  | _ => none

/-- Models `strconv.ParseFloat(s, 64)` restricted to plain decimal notation
(optional sign, integer digits, optional fraction), carrying the exact
rational value; exotic float syntax (exponents, inf, nan, hex) is outside
the grammar and float64 rounding is not observable in any claim. -/
def parseFloat (s : String) : Option ℚ :=
  match s.data with
  | '+' :: cs => decimalCore cs
  | '-' :: cs => (decimalCore cs).map (fun q => -q)
  | cs => decimalCore cs

/-! ### Data model: the Go `User` struct -/

structure User where
  UserID : String
  Email : String
  MonthlyIncome : ℚ
  CreditScore : Int
  EmploymentStatus : String
  Age : Int
deriving DecidableEq

/-! ### Column Resolver: `createColumnIndex` / `validateColumns`

A Go `map[string]int` is embedded as `String → Option Nat`; a later
assignment to the same key overwrites the earlier one. -/

def buildIndex : Nat → List String → (String → Option Nat) → String → Option Nat
  | _, [], m => m
  | i, c :: rest, m =>
      buildIndex (i + 1) rest (fun k => if k = normalizeHeader c then some i else m k)

/-- `createColumnIndex(header)`: `colIndex[ToLower(TrimSpace(col))] = i`
for each header cell in order. -/
def createColumnIndex (header : List String) : String → Option Nat :=
  buildIndex 0 header (fun _ => none)

def requiredCols : List String :=
  ["user_id", "email", "monthly_income", "credit_score", "employment_status", "age"]

def checkCols : List String → (String → Option Nat) → Except String Unit
  | [], _ => .ok ()
  | c :: rest, m =>
      if (m c).isSome then checkCols rest m
      else .error ("missing required column: " ++ c)

/-- `validateColumns(colIndex)`. -/
def validateColumns (m : String → Option Nat) : Except String Unit :=
  checkCols requiredCols m

/-! ### Record Parser: `parseUserRecord` -/

/-- Outcome of one call to `parseUserRecord`: a record, a strict numeric
parse failure (carrying the first failing field, in the order the Go code
checks them), or a fault (an out-of-range slice index, which in Go would
panic). -/
inductive ParseOutcome where
  | ok (u : User)
  | invalidField (name : String)
  | fault
deriving DecidableEq

/-- `record[colIndex[name]]`: reading a missing key from a Go map yields the
zero value `0`, and indexing the record out of range faults (`none`). -/
def fieldAt (record : List String) (colIndex : String → Option Nat) (name : String) :
    Option String :=
  record.get? ((colIndex name).getD 0)

/-- `parseUserRecord(record, colIndex)`: monthly_income, credit_score and age
are parsed strictly (first failure wins, in source order); the string fields
are trimmed of surrounding whitespace. -/
def parseUserRecord (record : List String) (colIndex : String → Option Nat) : ParseOutcome :=
  match fieldAt record colIndex "monthly_income" with
  | none => .fault
  | some s₁ =>
    match parseFloat (trimS s₁) with
    | none => .invalidField "monthly_income"
    | some monthlyIncome =>
      match fieldAt record colIndex "credit_score" with
      | none => .fault
      | some s₂ =>
        match atoi (trimS s₂) with
        | none => .invalidField "credit_score"
        | some creditScore =>
          match fieldAt record colIndex "age" with
          | none => .fault
          | some s₃ =>
            match atoi (trimS s₃) with
            | none => .invalidField "age"
            | some age =>
              match fieldAt record colIndex "user_id", fieldAt record colIndex "email",
                  fieldAt record colIndex "employment_status" with
              | some si, some se, some ses =>
                  .ok ⟨trimS si, trimS se, monthlyIncome, creditScore, trimS ses, age⟩
              | _, _, _ => .fault

/-- `parseWorker` forwards a successfully parsed record and skips the rest
(a fault would crash the worker; it is unreachable once the header has been
validated, as proved below). -/
def toUser? : ParseOutcome → Option User
  | .ok u => some u
  | _ => none

/-! ### Destination store: the `users` table of `init.sql`

Exactly the columns `init.sql` creates: `user_id` (primary key), the five
data fields, and `created_at` with `DEFAULT CURRENT_TIMESTAMP`.  The table
has no `updated_at` column. -/

structure DBRow where
  userId : String
  email : String
  monthlyIncome : ℚ
  creditScore : Int
  employmentStatus : String
  age : Int
  createdAt : Nat
deriving DecidableEq

abbrev Table := List DBRow

def dataFields (r : DBRow) : String × ℚ × Int × String × Int :=
  (r.email, r.monthlyIncome, r.creditScore, r.employmentStatus, r.age)

def userData (u : User) : String × ℚ × Int × String × Int :=
  (u.Email, u.MonthlyIncome, u.CreditScore, u.EmploymentStatus, u.Age)

def rowOfUser (u : User) (t : Nat) : DBRow :=
  ⟨u.UserID, u.Email, u.MonthlyIncome, u.CreditScore, u.EmploymentStatus, u.Age, t⟩

/-- Column names of the `users` table as created by `src/database/init.sql`
(there is no `updated_at`). -/
def usersColumns : List String :=
  ["user_id", "email", "monthly_income", "credit_score", "employment_status", "age",
    "created_at"]

/-- Columns assigned by the `DO UPDATE SET` list of the streaming bulk
upsert in `bulkInsert` (`main.go:313-319`). -/
def streamingSetColumns : List String :=
  ["email", "monthly_income", "credit_score", "employment_status", "age", "updated_at"]

/-- Columns assigned by the `DO UPDATE SET` list of the sequential upsert in
`saveToDatabase` (`main.go:622-628`). -/
def seqSetColumns : List String :=
  ["email", "monthly_income", "credit_score", "employment_status", "age", "created_at"]

/-- PostgreSQL analyzes a statement before executing it: an assignment to a
column the table does not have rejects the whole statement, whatever rows it
carries. -/
def setListAccepted (setCols : List String) : Bool :=
  setCols.all (fun c => usersColumns.contains c)

def streamingStatementOk : Bool := setListAccepted streamingSetColumns

/-- What one VALUES row of the streaming statement would do to a conflicting
stored row on the columns that exist: overwrite the five data fields and
keep `created_at` (the statement's sixth assignment, to the nonexistent
`updated_at`, is exactly what gets the whole statement rejected — see
`bulkInsertFlush`). -/
def overwriteRow (r : DBRow) (u : User) : DBRow :=
  { r with email := u.Email, monthlyIncome := u.MonthlyIncome,
           creditScore := u.CreditScore, employmentStatus := u.EmploymentStatus,
           age := u.Age }

/-- One row of `INSERT INTO users ... ON CONFLICT (user_id) DO UPDATE SET ...`
from `bulkInsert` (streaming variant), were the statement accepted: insert
with `created_at` defaulted to the current time, or overwrite on key
conflict. -/
def upsert (u : User) (t : Nat) (tbl : Table) : Table :=
  if tbl.any (fun r => r.userId = u.UserID) then
    tbl.map (fun r => if r.userId = u.UserID then overwriteRow r u else r)
  else tbl ++ [rowOfUser u t]

/-- The `DO UPDATE SET` clause of the sequential per-row upsert
(`saveToDatabase`): every non-key field is overwritten and
`created_at = CURRENT_TIMESTAMP`; no update timestamp exists to touch. -/
def overwriteRowSeq (r : DBRow) (u : User) (t : Nat) : DBRow :=
  { r with email := u.Email, monthlyIncome := u.MonthlyIncome,
           creditScore := u.CreditScore, employmentStatus := u.EmploymentStatus,
           age := u.Age, createdAt := t }

/-- One execution of the prepared upsert statement in `saveToDatabase`
(sequential variant); its SET list names only existing columns, so this
statement really runs. -/
def upsertSeq (u : User) (t : Nat) (tbl : Table) : Table :=
  if tbl.any (fun r => r.userId = u.UserID) then
    tbl.map (fun r => if r.userId = u.UserID then overwriteRowSeq r u t else r)
  else tbl ++ [rowOfUser u t]

/-! ### Batch Writer: `batchInserter` / `insertBatch` / `bulkInsert`

`ok i` tells whether the `i`-th flush transaction commits; a failed
transaction rolls back (the table is unchanged) and the batch is dropped
either way.  `log` records the size of every attempted flush transaction. -/

structure BWState where
  batch : List User
  total : Nat
  flushIdx : Nat
  log : List Nat
  tbl : Table
deriving DecidableEq

def initState (tbl : Table) : BWState := ⟨[], 0, 0, [], tbl⟩

/-- The table effect of one committed `bulkInsert` transaction: the multi-row
upsert processes its rows in order. -/
def applyBatch (b : List User) (t : Nat) (tbl : Table) : Table :=
  b.foldl (fun acc u => upsert u t acc) tbl

/-- One flush transaction of the streaming writer (`bulkInsert`) against the
shipped schema: PostgreSQL analyzes the statement first, and because the SET
list assigns `updated_at` — a column the `users` table does not have — the
statement is rejected, the transaction rolls back and an error is returned;
the row-wise effect `applyBatch` is reachable only behind the (false)
acceptance check. -/
def bulkInsertFlush (b : List User) (t : Nat) (tbl : Table) : Except String Table :=
  if streamingStatementOk then .ok (applyBatch b t tbl)
  else .error "undefined column: updated_at"

/-- The `insertBatch` closure: an empty batch is a no-op; otherwise one
transaction is attempted, the total grows by the batch size exactly when the
transaction commits, and the batch is reset. -/
def insertBatch (ok : Nat → Bool) (t : Nat) (s : BWState) : BWState :=
  if s.batch.isEmpty then s
  else
    { batch := [],
      total := if ok s.flushIdx then s.total + s.batch.length else s.total,
      flushIdx := s.flushIdx + 1,
      log := s.log ++ [s.batch.length],
      tbl := if ok s.flushIdx then applyBatch s.batch t s.tbl else s.tbl }

/-- `batchInserter`: append each arriving record to the batch, flush when the
batch reaches `cap` (`BatchSize`), and flush the remaining partial batch
after the record queue closes. -/
def batchInserter (ok : Nat → Bool) (cap t : Nat) : List User → BWState → BWState
  | [], s => insertBatch ok t s
  | u :: rest, s =>
      let s₁ : BWState := { s with batch := s.batch ++ [u] }
      let s₂ := if cap ≤ s₁.batch.length then insertBatch ok t s₁ else s₁
      batchInserter ok cap t rest s₂

/-! ### Reference views of the batch schedule -/

/-- The sequence of batches the writer flushes, starting from a pending
batch. -/
def flushList (cap : Nat) : List User → List User → List (List User)
  | [], batch => if batch.isEmpty then [] else [batch]
  | u :: rest, batch =>
      let b := batch ++ [u]
      if cap ≤ b.length then b :: flushList cap rest [] else flushList cap rest b

/-- Sum of the sizes of the batches whose transaction commits, numbering the
transactions from `i`. -/
def committedSum (ok : Nat → Bool) : Nat → List (List User) → Nat
  | _, [] => 0
  | i, b :: rest => (if ok i then b.length else 0) + committedSum ok (i + 1) rest

/-- Table effect of the committed transactions, numbering them from `i`. -/
def applyCommitted (ok : Nat → Bool) (t : Nat) : Nat → List (List User) → Table → Table
  | _, [], tbl => tbl
  | i, b :: rest, tbl =>
      applyCommitted ok t (i + 1) rest (if ok i then applyBatch b t tbl else tbl)

/-- The sub-list of batches whose transaction commits. -/
def selectOk (ok : Nat → Bool) : Nat → List (List User) → List (List User)
  | _, [] => []
  | i, b :: rest =>
      if ok i then b :: selectOk ok (i + 1) rest else selectOk ok (i + 1) rest

/-! ### The pipeline, sequential reference semantics

`processCSVStreaming` after the header read: validate the header, hand every
well-formed row (the csv tokenizer rejects a row whose field count differs
from the header) to the parsing stage, and feed the accepted records to the
batch writer. -/

def validRows (header : List String) (rows : List (List String)) : List (List String) :=
  rows.filter (fun r => r.length == header.length)

def pipelineRun (ok : Nat → Bool) (cap t : Nat) (header : List String)
    (rows : List (List String)) (tbl : Table) : Except String Nat × Table :=
  let colIndex := createColumnIndex header
  match validateColumns colIndex with
  | .error e => (.error e, tbl)
  | .ok _ =>
      let users := (validRows header rows).filterMap
        (fun r => toUser? (parseUserRecord r colIndex))
      let final := batchInserter ok cap t users (initState tbl)
      (.ok final.total, final.tbl)

/-! ### The Lambda handler: `handler` / `triggerMatchingWorkflow`

The handler loops over the S3 event records; an ingestion error is returned,
a notification error is only logged (the streaming variant even launches the
notification in a detached goroutine) and never returned. -/

structure S3Record where
  bucket : String
  key : String

def handler (ingest : S3Record → Except String Nat)
    (notify : Nat → Except String Unit) : List S3Record → Except String Unit
  | [] => .ok ()
  | e :: rest =>
      match ingest e with
      | .error err => .error err
      | .ok n =>
          let _ := notify n
          handler ingest notify rest

/-! ### Observations on the destination table -/

def lookupRow (k : String) (tbl : Table) : Option DBRow :=
  tbl.find? (fun r => r.userId = k)

/-! ### Nondeterministic fan-out/fan-in

`IsMerge ls m`: `m` is an order-preserving interleaving of the lists `ls`.
Distributing the rows of the row queue to `W` workers makes the row list a
merge of the per-worker input lists, and the record queue receives some
merge of the per-worker output lists. -/

inductive IsMerge {α : Type} : List (List α) → List α → Prop
  | done (ls : List (List α)) : (∀ l ∈ ls, l = []) → IsMerge ls []
  | step (ls : List (List α)) (i : Nat) (a : α) (rest m : List α) :
      ls.get? i = some (a :: rest) → IsMerge (ls.set i rest) m → IsMerge ls (a :: m)

/-! ### Concrete instances used by the witnesses -/

def hdrC1 : List String :=
  ["user_id", "email", "monthly_income", "credit_score", "employment_status", "age"]

def recC1 : List String := [" u1 ", "a@x.com", " 5000", "700", "employed ", "30"]

def hdrC2 : List String :=
  ["User_ID", " Email", "monthly_income", "CREDIT_SCORE", "employment_status", "age", "extra"]

def hdrC2bad : List String :=
  ["user_id", "email", "monthly_income", "credit_score", "employment_status"]

def uC5c : User := ⟨"U1", "c@x.com", 6000, 710, "employed", 31⟩

def rowC5 : DBRow := ⟨"U1", "old@x.com", 5000, 700, "employed", 30, 0⟩

def uC6 : User := ⟨"U1", "new@x.com", 1200, 640, "retired", 65⟩

def rowC6 : DBRow := ⟨"U1", "old@x.com", 900, 600, "employed", 64, 0⟩

def uC7a : User := ⟨"w1", "a@x.com", 1, 2, "emp", 3⟩

def uC7b : User := ⟨"w2", "b@x.com", 4, 5, "emp", 6⟩

def hdrC7 : List String :=
  ["user_id", "email", "monthly_income", "credit_score", "employment_status", "age"]

def rowA7 : List String := ["w1", "a@x.com", "1", "2", "emp", "3"]

def rowB7 : List String := ["w2", "b@x.com", "4", "5", "emp", "6"]

def rowsC7 : List (List String) := [rowA7, rowB7]

def evC8 : S3Record := ⟨"bucket", "file.csv"⟩

def hdrC9 : List String :=
  ["user_id", "email", "monthly_income", "credit_score", "employment_status", "age"]

def recC9 : List String := ["u9", "b@x.com", "120.5", "640", "self-employed", "41"]

def hdrC10 : List String := ["Age", "user_id", " AGE "]

/-! ### Column index lemmas -/

theorem buildIndex_absent {hs : List String} {k : String}
    (h : ∀ c ∈ hs, normalizeHeader c ≠ k) (i : Nat) (m : String → Option Nat) :
    buildIndex i hs m k = m k := by
  induction hs generalizing i m with
  | nil => rfl
  | cons c rest ih =>
      have hc : normalizeHeader c ≠ k := h c (by simp)
      have hrest : ∀ x ∈ rest, normalizeHeader x ≠ k := fun x hx => h x (by simp [hx])
      simp only [buildIndex]
      rw [ih hrest]
      exact if_neg (fun hk => hc hk.symm)

theorem buildIndex_isSome_iff {hs : List String} {k : String} (i : Nat)
    (m : String → Option Nat) :
    (buildIndex i hs m k).isSome ↔ (∃ c ∈ hs, normalizeHeader c = k) ∨ (m k).isSome := by
  induction hs generalizing i m with
  | nil => simp [buildIndex]
  | cons c rest ih =>
      simp only [buildIndex]
      rw [ih]
      by_cases hk : k = normalizeHeader c
      · simp [hk]
      · have : normalizeHeader c = k ↔ False := ⟨fun h => hk h.symm, False.elim⟩
        simp [hk, this]

theorem buildIndex_bound {hs : List String} {k : String} {j : Nat} {i : Nat}
    {m : String → Option Nat} (h : buildIndex i hs m k = some j) :
    m k = some j ∨ j < i + hs.length := by
  induction hs generalizing i m with
  | nil => exact Or.inl h
  | cons c rest ih =>
      simp only [buildIndex] at h
      rcases ih h with h' | h'
      · by_cases hk : k = normalizeHeader c
        · rw [if_pos hk] at h'
          right
          injection h' with h''
          simp only [List.length_cons]
          omega
        · rw [if_neg hk] at h'
          exact Or.inl h'
      · right
        simp only [List.length_cons]
        omega

theorem createColumnIndex_lt {header : List String} {k : String} {j : Nat}
    (h : createColumnIndex header k = some j) : j < header.length := by
  rcases buildIndex_bound h with h' | h'
  · exact absurd h' (by simp)
  · omega

theorem buildIndex_last {hs : List String} {k c : String} {j : Nat}
    (hj : hs.get? j = some c) (hc : normalizeHeader c = k)
    (hlast : ∀ l c', j < l → hs.get? l = some c' → normalizeHeader c' ≠ k)
    (i : Nat) (m : String → Option Nat) :
    buildIndex i hs m k = some (i + j) := by
  induction hs generalizing i j m with
  | nil => simp at hj
  | cons d rest ih =>
      cases j with
      | zero =>
          simp only [List.get?] at hj
          injection hj with hd
          subst hd
          have habs : ∀ x ∈ rest, normalizeHeader x ≠ k := by
            intro x hx
            obtain ⟨n, hn⟩ := List.mem_iff_get?.mp hx
            exact hlast (n + 1) x (by omega) (by simpa using hn)
          simp only [buildIndex]
          rw [buildIndex_absent habs]
          simp [hc]
      | succ j' =>
          simp only [List.get?] at hj
          have hlast' : ∀ l c', j' < l → rest.get? l = some c' → normalizeHeader c' ≠ k := by
            intro l c' hl hg
            exact hlast (l + 1) c' (by omega) (by simpa using hg)
          simp only [buildIndex]
          rw [ih hj hlast']
          congr 1
          omega

/-! ### validateColumns lemmas -/

theorem checkCols_ok_iff (cols : List String) (m : String → Option Nat) :
    checkCols cols m = .ok () ↔ ∀ c ∈ cols, (m c).isSome := by
  induction cols with
  | nil => simp [checkCols]
  | cons c rest ih =>
      simp only [checkCols]
      by_cases hc : (m c).isSome
      · simp [hc, ih]
      · simp [hc]

/-! ### Parser lemmas -/

theorem parseUserRecord_ne_fault {record : List String} {colIndex : String → Option Nat}
    (h : ∀ name ∈ requiredCols, (fieldAt record colIndex name).isSome) :
    parseUserRecord record colIndex ≠ ParseOutcome.fault := by
  obtain ⟨smi, hmi⟩ := Option.isSome_iff_exists.mp (h "monthly_income" (by simp [requiredCols]))
  obtain ⟨scs, hcs⟩ := Option.isSome_iff_exists.mp (h "credit_score" (by simp [requiredCols]))
  obtain ⟨sag, hag⟩ := Option.isSome_iff_exists.mp (h "age" (by simp [requiredCols]))
  obtain ⟨sui, hui⟩ := Option.isSome_iff_exists.mp (h "user_id" (by simp [requiredCols]))
  obtain ⟨sem, hem⟩ := Option.isSome_iff_exists.mp (h "email" (by simp [requiredCols]))
  obtain ⟨ses, hes⟩ := Option.isSome_iff_exists.mp
    (h "employment_status" (by simp [requiredCols]))
  simp only [parseUserRecord, hmi, hcs, hag, hui, hem, hes]
  cases parseFloat (trimS smi) with
  | none => simp
  | some q =>
      cases atoi (trimS scs) with
      | none => simp
      | some n =>
          cases atoi (trimS sag) with
          | none => simp
          | some a => simp

/-- C1: if the three numeric fields of a row parse, `parseUserRecord` yields a
record holding exactly the trimmed string fields and the parsed numeric
values; if any numeric field fails to parse, no record is produced (the
outcome carries no `User`) and no fault escapes the parser. -/
theorem c1_parse_record :
    ∀ (record : List String) (colIndex : String → Option Nat) (si se smi scs ses sa : String),
      fieldAt record colIndex "user_id" = some si →
      fieldAt record colIndex "email" = some se →
      fieldAt record colIndex "monthly_income" = some smi →
      fieldAt record colIndex "credit_score" = some scs →
      fieldAt record colIndex "employment_status" = some ses →
      fieldAt record colIndex "age" = some sa →
      (∀ (q : ℚ) (n a : Int),
          parseFloat (trimS smi) = some q → atoi (trimS scs) = some n →
          atoi (trimS sa) = some a →
          parseUserRecord record colIndex = .ok ⟨trimS si, trimS se, q, n, trimS ses, a⟩) ∧
        ((parseFloat (trimS smi) = none ∨ atoi (trimS scs) = none ∨ atoi (trimS sa) = none) →
          (∀ u, parseUserRecord record colIndex ≠ .ok u) ∧
            parseUserRecord record colIndex ≠ .fault) := by
  intro record colIndex si se smi scs ses sa hui hem hmi hcs hes hag
  constructor
  · intro q n a hq hn ha
    simp only [parseUserRecord, hmi, hq, hcs, hn, hag, ha, hui, hem, hes]
  · intro hfail
    have key : ∃ name, parseUserRecord record colIndex = .invalidField name := by
      cases hq : parseFloat (trimS smi) with
      | none => exact ⟨"monthly_income", by simp only [parseUserRecord, hmi, hq]⟩
      | some q =>
          cases hn : atoi (trimS scs) with
          | none => exact ⟨"credit_score", by simp only [parseUserRecord, hmi, hq, hcs, hn]⟩
          | some n =>
              cases ha : atoi (trimS sa) with
              | none =>
                  exact ⟨"age", by simp only [parseUserRecord, hmi, hq, hcs, hn, hag, ha]⟩
              | some a =>
                  rcases hfail with h | h | h
                  · rw [hq] at h; exact absurd h (by simp)
                  · rw [hn] at h; exact absurd h (by simp)
                  · rw [ha] at h; exact absurd h (by simp)
    obtain ⟨name, hkey⟩ := key
    rw [hkey]
    exact ⟨fun u => by simp, by simp⟩

/-- Witness for C1 at a concrete row. -/
theorem c1_parse_record_witness :
    parseUserRecord recC1 (createColumnIndex hdrC1) =
      .ok ⟨"u1", "a@x.com", 5000, 700, "employed", 30⟩ := by
  have h := (c1_parse_record recC1 (createColumnIndex hdrC1)
      " u1 " "a@x.com" " 5000" "700" "employed " "30"
      (by decide) (by decide) (by decide) (by decide) (by decide) (by decide)).1
      5000 700 30 (by decide) (by decide) (by decide)
  rw [h]
  decide

/-- C2: the Column Resolver succeeds exactly when every one of the six
required field names appears (case-insensitively, trimmed) somewhere in the
header; a missing required name makes the whole job fail up front with the
schema error, leaving the destination table untouched. -/
theorem c2_column_resolver :
    ∀ (header : List String) (rows : List (List String)) (ok : Nat → Bool)
      (cap t : Nat) (tbl : Table),
      (validateColumns (createColumnIndex header) = .ok () ↔
          ∀ c ∈ requiredCols, ∃ h ∈ header, normalizeHeader h = c) ∧
        ((∃ c ∈ requiredCols, ∀ h ∈ header, normalizeHeader h ≠ c) →
          ∃ e, pipelineRun ok cap t header rows tbl = (.error e, tbl)) := by
  intro header rows ok cap t tbl
  have hiff : validateColumns (createColumnIndex header) = .ok () ↔
      ∀ c ∈ requiredCols, ∃ h ∈ header, normalizeHeader h = c := by
    rw [validateColumns, checkCols_ok_iff]
    constructor
    · intro h c hc
      have hx := h c hc
      rw [createColumnIndex, buildIndex_isSome_iff] at hx
      rcases hx with h' | h'
      · exact h'
      · simp at h'
    · intro h c hc
      rw [createColumnIndex, buildIndex_isSome_iff]
      exact Or.inl (h c hc)
  refine ⟨hiff, ?_⟩
  rintro ⟨c, hc, habs⟩
  cases hval : validateColumns (createColumnIndex header) with
  | ok u =>
      cases u
      obtain ⟨x, hx, hxx⟩ := hiff.mp hval c hc
      exact absurd hxx (habs x hx)
  | error e =>
      exact ⟨e, by simp only [pipelineRun, hval]⟩

/-- Witness for C2: a permuted/odd-cased header with an extra column passes;
a header missing `age` aborts the run with the table unchanged. -/
theorem c2_column_resolver_witness :
    validateColumns (createColumnIndex hdrC2) = .ok () ∧
      ∃ e, pipelineRun (fun _ => true) 2 0 hdrC2bad [] [] = (.error e, []) :=
  ⟨(c2_column_resolver hdrC2 [] (fun _ => true) 2 0 []).1.mpr (by decide),
    (c2_column_resolver hdrC2bad [] (fun _ => true) 2 0 []).2 (by decide)⟩

/-- C9: once the header has been validated, every row the reader hands to a
worker (the csv tokenizer rejects a row whose field count differs from the
header) indexes in bounds at every required column, so the parser never
faults. -/
theorem c9_no_fault :
    ∀ (header : List String) (rows : List (List String)) (row : List String),
      validateColumns (createColumnIndex header) = .ok () →
      row ∈ validRows header rows →
      parseUserRecord row (createColumnIndex header) ≠ ParseOutcome.fault := by
  intro header rows row hval hrow
  have hlen : row.length = header.length := by
    have h2 := (List.mem_filter.mp hrow).2
    simpa using h2
  apply parseUserRecord_ne_fault
  intro name hname
  have hsome : (createColumnIndex header name).isSome :=
    (checkCols_ok_iff requiredCols _).mp hval name hname
  obtain ⟨j, hj⟩ := Option.isSome_iff_exists.mp hsome
  have hjlt : j < header.length := createColumnIndex_lt hj
  rw [fieldAt, hj, Option.getD_some]
  cases hg : row.get? j with
  | none =>
      have := List.get?_eq_none.mp hg
      omega
  | some v => simp

/-- Witness for C9 at a concrete validated header and well-formed row. -/
theorem c9_no_fault_witness :
    parseUserRecord recC9 (createColumnIndex hdrC9) ≠ ParseOutcome.fault :=
  c9_no_fault hdrC9 [recC9] recC9 (by rfl) (by decide)

/-- C10: when several header cells normalize to the same name, the column
index binds that name to the rightmost such column, and the parser therefore
reads every row's value from that last occurrence. -/
theorem c10_rightmost_wins :
    ∀ (header : List String) (name c : String) (j : Nat) (row : List String),
      header.get? j = some c → normalizeHeader c = name →
      (∀ l c', j < l → header.get? l = some c' → normalizeHeader c' ≠ name) →
      createColumnIndex header name = some j ∧
        fieldAt row (createColumnIndex header) name = row.get? j := by
  intro header name c j row hj hc hlast
  have h : createColumnIndex header name = some j := by
    have hb := buildIndex_last hj hc hlast 0 (fun _ => none)
    simpa using hb
  exact ⟨h, by rw [fieldAt, h, Option.getD_some]⟩

/-- Witness for C10: a duplicated `age` column resolves to the rightmost
occurrence, and the parser reads that cell. -/
theorem c10_rightmost_wins_witness :
    createColumnIndex hdrC10 "age" = some 2 ∧
      fieldAt ["x", "y", "z"] (createColumnIndex hdrC10) "age" = some "z" := by
  have h := c10_rightmost_wins hdrC10 "age" " AGE " 2 ["x", "y", "z"]
      (by decide) (by decide)
      (by
        intro l c' hl hg
        have hnone : hdrC10.get? l = none :=
          List.get?_eq_none.mpr
            (by simp only [hdrC10, List.length_cons, List.length_nil]; omega)
        rw [hnone] at hg
        exact absurd hg (by simp))
  exact ⟨h.1, h.2.trans (by decide)⟩

/-! ### Batch writer lemmas -/

theorem batchInserter_eq (ok : Nat → Bool) (cap t : Nat) (recs : List User)
    (b0 : List User) (tot fi : Nat) (lg : List Nat) (tb : Table) :
    batchInserter ok cap t recs ⟨b0, tot, fi, lg, tb⟩ =
      ⟨[], tot + committedSum ok fi (flushList cap recs b0),
        fi + (flushList cap recs b0).length,
        lg ++ (flushList cap recs b0).map List.length,
        applyCommitted ok t fi (flushList cap recs b0) tb⟩ := by
  induction recs generalizing b0 tot fi lg tb with
  | nil =>
      by_cases hb : b0.isEmpty
      · have hb' : b0 = [] := by simpa [List.isEmpty_iff] using hb
        subst hb'
        simp [batchInserter, insertBatch, flushList, committedSum, applyCommitted]
      · simp only [Bool.not_eq_true] at hb
        cases hok : ok fi <;>
          simp [batchInserter, insertBatch, flushList, committedSum, applyCommitted, hb, hok]
  | cons u rest ih =>
      simp only [batchInserter, List.length_append, List.length_cons, List.length_nil,
        List.nil_append, flushList]
      by_cases hcap : cap ≤ b0.length + 1
      · rw [if_pos hcap, if_pos (by simpa using hcap)]
        have hne : (b0 ++ [u]).isEmpty = false := by simp
        simp only [insertBatch, hne, Bool.false_eq_true, if_false]
        rw [ih]
        cases hok : ok fi <;>
          · simp [hok, committedSum, applyCommitted, List.length_append, Nat.add_assoc,
              List.append_assoc]
            omega
      · rw [if_neg hcap, if_neg (by simpa using hcap)]
        exact ih (b0 ++ [u]) tot fi lg tb

theorem committedSum_eq_selectOk (ok : Nat → Bool) (i : Nat) (fl : List (List User)) :
    committedSum ok i fl = ((selectOk ok i fl).map List.length).sum := by
  induction fl generalizing i with
  | nil => simp [committedSum, selectOk]
  | cons b rest ih =>
      by_cases hok : ok i <;> simp [committedSum, selectOk, hok, ih]

theorem applyCommitted_eq_selectOk (ok : Nat → Bool) (t : Nat) (i : Nat)
    (fl : List (List User)) (tb : Table) :
    applyCommitted ok t i fl tb =
      (selectOk ok i fl).foldl (fun acc b => applyBatch b t acc) tb := by
  induction fl generalizing i tb with
  | nil => rfl
  | cons b rest ih =>
      by_cases hok : ok i <;> simp [applyCommitted, selectOk, hok, ih]

theorem flushList_join (cap : Nat) (recs batch : List User) :
    (flushList cap recs batch).flatten = batch ++ recs := by
  induction recs generalizing batch with
  | nil =>
      by_cases hb : batch.isEmpty
      · have hb' : batch = [] := by simpa [List.isEmpty_iff] using hb
        subst hb'
        simp [flushList]
      · simp only [Bool.not_eq_true] at hb
        simp [flushList, hb]
  | cons u rest ih =>
      simp only [flushList]
      by_cases hcap : cap ≤ (batch ++ [u]).length
      · rw [if_pos hcap]
        simp [ih]
      · rw [if_neg hcap, ih]
        simp

/-- C3: the writer flushes exactly when the batch reaches the cap and once
more for the remaining partial batch: with cap 2 and five records the
attempted flush transactions have sizes 2, 2, 1 and the total is 5 when all
of them commit; in general the returned total is the sum of the sizes of the
successfully committed batches. -/
theorem c3_batch_flush_sizes :
    (∀ (a b c d e : User) (t : Nat) (tbl : Table),
        (batchInserter (fun _ => true) 2 t [a, b, c, d, e] (initState tbl)).log = [2, 2, 1] ∧
          (batchInserter (fun _ => true) 2 t [a, b, c, d, e] (initState tbl)).total = 5) ∧
      ∀ (ok : Nat → Bool) (cap t : Nat) (recs : List User) (tbl : Table),
        (batchInserter ok cap t recs (initState tbl)).total =
          ((selectOk ok 0 (flushList cap recs [])).map List.length).sum := by
  constructor
  · intro a b c d e t tbl
    rw [initState, batchInserter_eq]
    constructor <;> simp [flushList, committedSum]
  · intro ok cap t recs tbl
    rw [initState, batchInserter_eq]
    simp [committedSum_eq_selectOk]

/-- C4: a failed flush transaction contributes nothing to the total and
nothing to the table (rollback), while every other batch — earlier or later —
is still attempted and, when committed, applied: the run is equivalent to
applying exactly the committed batches in order. -/
theorem c4_flush_failure_isolated :
    ∀ (ok : Nat → Bool) (cap t : Nat) (recs : List User) (tbl : Table),
      (batchInserter ok cap t recs (initState tbl)).tbl =
          (selectOk ok 0 (flushList cap recs [])).foldl (fun acc b => applyBatch b t acc) tbl ∧
        (batchInserter ok cap t recs (initState tbl)).total =
          ((selectOk ok 0 (flushList cap recs [])).map List.length).sum ∧
        (batchInserter ok cap t recs (initState tbl)).log =
          (flushList cap recs []).map List.length := by
  intro ok cap t recs tbl
  rw [initState, batchInserter_eq]
  exact ⟨applyCommitted_eq_selectOk ok t 0 _ tbl, by simp [committedSum_eq_selectOk], by simp⟩

/-! ### Upsert lemmas -/

theorem find?_append_split {α : Type} (p : α → Bool) (l₁ l₂ : List α) :
    (l₁ ++ l₂).find? p =
      match l₁.find? p with
      | some a => some a
      | none => l₂.find? p := by
  induction l₁ with
  | nil => simp
  | cons a l ih =>
      by_cases hp : p a <;> simp [List.find?_cons, hp, ih]

theorem find?_map_of_pres {α : Type} (g : α → α) (p : α → Bool)
    (h : ∀ a, p (g a) = p a) (l : List α) :
    (l.map g).find? p = (l.find? p).map g := by
  induction l with
  | nil => rfl
  | cons a l ih =>
      by_cases hp : p a
      · simp [List.find?_cons, h, hp]
      · simp [List.find?_cons, h, hp, ih]

theorem lookupRow_upsertSeq_self (u : User) (t : Nat) (tbl : Table) :
    lookupRow u.UserID (upsertSeq u t tbl) =
      some (match lookupRow u.UserID tbl with
            | some r => overwriteRowSeq r u t
            | none => rowOfUser u t) := by
  cases hl : lookupRow u.UserID tbl with
  | none =>
      have hany : ¬(tbl.any (fun r => r.userId = u.UserID) = true) := by
        rw [List.any_eq_true]
        rintro ⟨r, hr, he⟩
        simp only [decide_eq_true_eq] at he
        have : lookupRow u.UserID tbl ≠ none := by
          rw [lookupRow]
          intro hc
          have := List.find?_eq_none.mp hc r hr
          simp [he] at this
        exact this hl
      rw [upsertSeq, if_neg hany, lookupRow, find?_append_split]
      rw [lookupRow] at hl
      rw [hl]
      simp [List.find?_cons, rowOfUser]
  | some r =>
      have hmem : r ∈ tbl := List.mem_of_find?_eq_some hl
      have hkey : r.userId = u.UserID := by
        have := List.find?_some hl
        simpa using this
      have hany : tbl.any (fun r => r.userId = u.UserID) = true :=
        List.any_eq_true.mpr ⟨r, hmem, by simp [hkey]⟩
      rw [upsertSeq, if_pos hany, lookupRow,
        find?_map_of_pres _ _ (fun a => by by_cases ha : a.userId = u.UserID <;>
          simp [ha, overwriteRowSeq])]
      rw [lookupRow] at hl
      rw [hl]
      simp [hkey]

theorem selectOk_false (i : Nat) (fl : List (List User)) :
    selectOk (fun _ => false) i fl = [] := by
  induction fl generalizing i with
  | nil => rfl
  | cons b rest ih => simp [selectOk, ih]

/-- C5 (code bug): against the `users` table that `init.sql` ships, the
streaming flush statement is always rejected -- its SET list assigns
`updated_at`, which the table does not have -- so no flush transaction ever
commits: the batch writer leaves the table unchanged, and re-ingesting a
changed row for an existing key (here `U1` with a new email) overwrites
nothing, contrary to the claim. -/
theorem c5_reingest_never_overwrites :
    (∀ (b : List User) (t : Nat) (tbl : Table),
        bulkInsertFlush b t tbl = .error "undefined column: updated_at") ∧
      (∀ (recs : List User) (cap t : Nat) (tbl : Table),
        (batchInserter (fun _ => streamingStatementOk) cap t recs (initState tbl)).tbl
          = tbl) ∧
      (batchInserter (fun _ => streamingStatementOk) 5000 1 [uC5c]
          (initState [rowC5])).tbl = [rowC5] ∧
      uC5c.UserID = rowC5.userId ∧ uC5c.Email ≠ rowC5.email := by
  have hok : streamingStatementOk = false := by decide
  have h2 : ∀ (recs : List User) (cap t : Nat) (tbl : Table),
      (batchInserter (fun _ => streamingStatementOk) cap t recs (initState tbl)).tbl
        = tbl := by
    intro recs cap t tbl
    have hfun : (fun _ : Nat => streamingStatementOk) = (fun _ : Nat => false) := by
      funext i
      exact hok
    rw [initState, batchInserter_eq]
    show applyCommitted (fun _ => streamingStatementOk) t 0
      (flushList cap recs []) tbl = tbl
    rw [hfun, applyCommitted_eq_selectOk, selectOk_false]
    rfl
  refine ⟨?_, h2, h2 [uC5c] 5000 1 [rowC5], rfl, by decide⟩
  intro b t tbl
  simp [bulkInsertFlush, hok]

/-- C6 counterexample: at a concrete key collision the sequential upsert
changes `created_at` on a conflicting update (the stored insert timestamp 0
becomes 5), and the streaming bulk upsert -- the statement that would have
to stamp `updated_at` -- is rejected outright (undefined column) instead of
overwriting the row, so the claim as stated fails on both statements it
covers. -/
theorem c6_counterexample_upserts :
    (lookupRow "U1" (upsertSeq uC6 5 [rowC6])).map DBRow.createdAt = some 5 ∧
      rowC6.createdAt = 0 ∧
      bulkInsertFlush [uC6] 5 [rowC6] = .error "undefined column: updated_at" ∧
      uC6.Email ≠ rowC6.email := by
  have hok : streamingStatementOk = false := by decide
  refine ⟨by decide, rfl, ?_, by decide⟩
  simp [bulkInsertFlush, hok]

/-- C6 (amended): of the two upsert statements the claim covers, only the
sequential one can execute against the shipped `users` table; on a key
collision it overwrites every non-key field with the incoming values but
stamps `created_at` on every overwrite, and there is no update timestamp to
touch -- while the streaming bulk upsert's statement assigns the nonexistent
`updated_at` column, is rejected on every execution, and therefore never
overwrites anything. -/
theorem c6_upsert_timestamps :
    ∀ (u : User) (t : Nat) (tbl : Table) (r : DBRow),
      (lookupRow u.UserID tbl = some r →
          lookupRow u.UserID (upsertSeq u t tbl) = some (overwriteRowSeq r u t) ∧
            (overwriteRowSeq r u t).createdAt = t ∧
            dataFields (overwriteRowSeq r u t) = userData u) ∧
        (lookupRow u.UserID tbl = none →
          lookupRow u.UserID (upsertSeq u t tbl) = some (rowOfUser u t) ∧
            (rowOfUser u t).createdAt = t) ∧
        setListAccepted seqSetColumns = true ∧
        usersColumns.contains "updated_at" = false ∧
        (∀ b : List User, bulkInsertFlush b t tbl
          = .error "undefined column: updated_at") := by
  intro u t tbl r
  have hok : streamingStatementOk = false := by decide
  refine ⟨?_, ?_, by decide, by decide, ?_⟩
  · intro h
    refine ⟨?_, rfl, rfl⟩
    rw [lookupRow_upsertSeq_self, h]
  · intro h
    rw [lookupRow_upsertSeq_self, h]
    exact ⟨rfl, rfl⟩
  · intro b
    simp [bulkInsertFlush, hok]

/-- Witness for the amended C6 at a concrete collision. -/
theorem c6_upsert_timestamps_witness :
    lookupRow "U1" (upsertSeq uC6 5 [rowC6]) = some (overwriteRowSeq rowC6 uC6 5) ∧
      (overwriteRowSeq rowC6 uC6 5).createdAt = 5 ∧
      rowC6.createdAt = 0 ∧
      bulkInsertFlush [uC6] 5 [rowC6] = .error "undefined column: updated_at" := by
  have h := c6_upsert_timestamps uC6 5 [rowC6] rowC6
  have h1 := h.1 (by decide)
  exact ⟨h1.1, h1.2.1, rfl, h.2.2.2.2 [uC6]⟩

/-! ### Merge/permutation lemmas for the worker fan-out -/

theorem flatten_eq_nil_of_all {α : Type} :
    ∀ (ls : List (List α)), (∀ l ∈ ls, l = []) → ls.flatten = []
  | [], _ => rfl
  | l :: ls, h => by
      have h1 : l = [] := h l (by simp)
      have h2 := flatten_eq_nil_of_all ls (fun x hx => h x (by simp [hx]))
      simp [h1, h2]

theorem flatten_perm_of_get? {α : Type} {ls : List (List α)} {i : Nat} {a : α}
    {rest : List α} (h : ls.get? i = some (a :: rest)) :
    ls.flatten.Perm (a :: (ls.set i rest).flatten) := by
  induction ls generalizing i with
  | nil => simp at h
  | cons hd tl ih =>
      cases i with
      | zero =>
          simp only [List.get?] at h
          injection h with h'
          subst h'
          exact List.Perm.refl _
      | succ n =>
          simp only [List.get?] at h
          have hperm := ih h
          have s1 : (hd ++ tl.flatten).Perm (hd ++ (a :: (tl.set n rest).flatten)) :=
            hperm.append_left hd
          have s2 : (hd ++ (a :: (tl.set n rest).flatten)).Perm
              (a :: (hd ++ (tl.set n rest).flatten)) := List.perm_middle
          exact s1.trans s2

theorem isMerge_perm {α : Type} {ls : List (List α)} {m : List α} (h : IsMerge ls m) :
    m.Perm ls.flatten := by
  induction h with
  | done ls hls => rw [flatten_eq_nil_of_all ls hls]
  | step ls i a rest m hget _ ih =>
      exact (List.Perm.cons a ih).trans (flatten_perm_of_get? hget).symm

theorem filterMap_flatten_eq {α β : Type} (f : α → Option β) (L : List (List α)) :
    (L.map (List.filterMap f)).flatten = List.filterMap f L.flatten := by
  induction L with
  | nil => rfl
  | cons l L ih =>
      show List.filterMap f l ++ (L.map (List.filterMap f)).flatten =
        List.filterMap f (l ++ L.flatten)
      rw [ih, List.filterMap_append]

theorem committedSum_all (i : Nat) (fl : List (List User)) :
    committedSum (fun _ => true) i fl = (fl.map List.length).sum := by
  induction fl generalizing i with
  | nil => rfl
  | cons b rest ih => simp [committedSum, ih]

theorem total_allOk (cap t : Nat) (recs : List User) (tbl : Table) :
    (batchInserter (fun _ => true) cap t recs (initState tbl)).total = recs.length := by
  rw [initState, batchInserter_eq]
  show 0 + committedSum (fun _ => true) 0 (flushList cap recs []) = recs.length
  rw [Nat.zero_add, committedSum_all, ← List.length_flatten, flushList_join]
  rfl

/-- C7: distributing the rows among any number of workers and collecting
their outputs in any interleaving yields a permutation of the records the
one-worker run produces, and the total persisted count (all flushes
committing) is identical: worker count affects only arrival order, never
which rows are accepted or how many are counted. -/
theorem c7_worker_count_irrelevant :
    ∀ (header : List String) (rows : List (List String)) (ins : List (List (List String)))
      (recs : List User) (cap t : Nat) (tbl tbl₂ : Table),
      IsMerge ins (validRows header rows) →
      IsMerge (ins.map (fun l =>
        l.filterMap (fun r => toUser? (parseUserRecord r (createColumnIndex header))))) recs →
      recs.Perm ((validRows header rows).filterMap
          (fun r => toUser? (parseUserRecord r (createColumnIndex header)))) ∧
        (batchInserter (fun _ => true) cap t recs (initState tbl)).total =
          (batchInserter (fun _ => true) cap t
            ((validRows header rows).filterMap
              (fun r => toUser? (parseUserRecord r (createColumnIndex header))))
            (initState tbl₂)).total := by
  intro header rows ins recs cap t tbl tbl₂ h1 h2
  have hrows := isMerge_perm h1
  have ha := isMerge_perm h2
  rw [filterMap_flatten_eq] at ha
  have hc := (hrows.filterMap
    (fun r => toUser? (parseUserRecord r (createColumnIndex header)))).symm
  have hperm := ha.trans hc
  refine ⟨hperm, ?_⟩
  rw [total_allOk, total_allOk, hperm.length_eq]

/-- Witness for C7: two rows split over two workers, records arriving in
reverse order. -/
theorem c7_worker_count_irrelevant_witness :
    ([uC7b, uC7a]).Perm ((validRows hdrC7 rowsC7).filterMap
        (fun r => toUser? (parseUserRecord r (createColumnIndex hdrC7)))) ∧
      (batchInserter (fun _ => true) 2 0 [uC7b, uC7a] (initState [])).total =
        (batchInserter (fun _ => true) 2 0
          ((validRows hdrC7 rowsC7).filterMap
            (fun r => toUser? (parseUserRecord r (createColumnIndex hdrC7))))
          (initState [])).total := by
  refine c7_worker_count_irrelevant hdrC7 rowsC7 [[rowA7], [rowB7]] [uC7b, uC7a] 2 0 [] []
    ?_ ?_
  · have hv : validRows hdrC7 rowsC7 = [rowA7, rowB7] := by decide
    rw [hv]
    exact .step _ 0 rowA7 [] [rowB7] rfl
      (.step _ 1 rowB7 [] [] rfl (.done _ (by decide)))
  · have hm : [[rowA7], [rowB7]].map (fun l =>
        l.filterMap (fun r => toUser? (parseUserRecord r (createColumnIndex hdrC7)))) =
        [[uC7a], [uC7b]] := by decide
    rw [hm]
    exact .step _ 1 uC7b [] [uC7a] rfl
      (.step _ 0 uC7a [] [] rfl (.done _ (by decide)))

/-- C8: whenever ingestion itself succeeds for every event record, the
handler returns success for any notifier behaviour, including an
always-failing one — a notification error never propagates as job
failure. -/
theorem c8_notifier_nonfatal :
    ∀ (events : List S3Record) (ingestFn : S3Record → Except String Nat)
      (notify : Nat → Except String Unit),
      (∀ e ∈ events, ∃ n, ingestFn e = .ok n) →
      handler ingestFn notify events = .ok () := by
  intro events ingestFn notify
  induction events with
  | nil => intro _; rfl
  | cons e rest ih =>
      intro h
      obtain ⟨n, hn⟩ := h e (by simp)
      simp only [handler, hn]
      exact ih (fun x hx => h x (by simp [hx]))

/-- Witness for C8: one event, successful ingestion, failing notifier. -/
theorem c8_notifier_nonfatal_witness :
    handler (fun _ => .ok 7) (fun _ => .error "webhook down") [evC8] = .ok () :=
  c8_notifier_nonfatal [evC8] (fun _ => .ok 7) (fun _ => .error "webhook down")
    (fun _ _ => ⟨7, rfl⟩)

end ClickPe
